import Mathlib

/-!
Verification development for the CyberElites-Resources repository.

The repository consists of four Python scripts:
  Utilities/utils.py, Email_Sender/send_email.py,
  Certificate_Generator/certificate_generator.py,
  QRCode_Generator/qrcode_generator.py.

This file gives a shallow embedding of the pure logic of those scripts.
Files are modelled as lists of lines (Python readlines / write of a
newline-join); the filesystem, SMTP and the PDF/image renderers are
modelled as explicit parameters (existence predicates, per-recipient
SMTP outcomes).  Python strings are Lean strings (a `String` in this
toolchain is a structure wrapping `List Char`), and the Python string
methods used by the scripts (`strip`, `title`, `lower`, `split`,
`count`, `join`) are embedded for their ASCII fragment below.
-/

namespace Py

/-- The whitespace characters stripped by Python `str.strip()`
(ASCII fragment): space, tab, newline, carriage return, vertical tab,
form feed. -/
def isSpace (c : Char) : Bool :=
  decide (c.toNat = 32 ∨ c.toNat = 9 ∨ c.toNat = 10 ∨
          c.toNat = 13 ∨ c.toNat = 11 ∨ c.toNat = 12)

/-- ASCII letter test, the fragment of Python `str.isalpha` used by
`str.title` that is relevant to ASCII names. -/
def isAlphaCh (c : Char) : Bool :=
  decide ((97 ≤ c.toNat ∧ c.toNat ≤ 122) ∨ (65 ≤ c.toNat ∧ c.toNat ≤ 90))

/-- Python `str.strip()` on the left: drop leading whitespace. -/
def stripL (l : List Char) : List Char := l.dropWhile isSpace

/-- Python `str.strip()` on the right: drop trailing whitespace.
Recursive formulation (equivalent to reversing, dropping, reversing). -/
def stripR : List Char → List Char
  | [] => []
  | c :: cs =>
    match stripR cs with
    | [] => if isSpace c then [] else [c]
    | d :: ds => c :: d :: ds

/-- Python `str.strip()`: drop whitespace at both ends. -/
def stripChars (l : List Char) : List Char := stripR (stripL l)

/-- One character of Python `str.title()`: `b` records whether the
previous character was a letter; the first letter of every run of
letters is uppercased, subsequent letters are lowercased, everything
else is kept.  `Char.toUpper` / `Char.toLower` are exactly the ASCII
case maps Python applies to ASCII letters. -/
def titleChar (b : Bool) (c : Char) : Char :=
  if isAlphaCh c then (if b then c.toLower else c.toUpper) else c

/-- Python `str.title()` character-list processing. -/
def titleAux : Bool → List Char → List Char
  | _, [] => []
  | b, c :: cs => titleChar b c :: titleAux (isAlphaCh c) cs

/-- Python `str.title()` on a character list. -/
def titleChars (l : List Char) : List Char := titleAux false l

/-- Python `str.lower()` (ASCII fragment). -/
def lowerChars (l : List Char) : List Char := l.map Char.toLower

/-- Python `str.strip()`. -/
def strip (s : String) : String := ⟨stripChars s.data⟩

/-- Python `str.title()`. -/
def title (s : String) : String := ⟨titleChars s.data⟩

/-- Python `str.lower()`. -/
def lower (s : String) : String := ⟨lowerChars s.data⟩

/-- A Python string is falsy after `strip` iff it strips to empty;
the scripts use this as their blank-line test. -/
def isBlank (s : String) : Bool := strip s == ""

/-- Python `str.split(sep)` for a one-character separator `sep`:
splits at every occurrence, keeping empty pieces
(so `"".split(sep) == [""]`). -/
def splitChAux (sep : Char) : List Char → List Char → List (List Char)
  | [], cur => [cur.reverse]
  | c :: cs, cur =>
    if c == sep then cur.reverse :: splitChAux sep cs []
    else splitChAux sep cs (c :: cur)

/-- Python `str.split(sep)` for a one-character separator. -/
def splitCh (sep : Char) (s : String) : List String :=
  (splitChAux sep s.data []).map String.mk

/-- Python `str.count(ch)` for a one-character argument. -/
def countCh (ch : Char) (s : String) : Nat := s.data.count ch

/-- Python `str.split()` with no argument: split on whitespace runs,
dropping empty pieces. -/
def splitWsAux : List Char → List Char → List (List Char)
  | [], cur => if cur.isEmpty then [] else [cur.reverse]
  | c :: cs, cur =>
    if isSpace c then
      (if cur.isEmpty then splitWsAux cs [] else cur.reverse :: splitWsAux cs [])
    else splitWsAux cs (c :: cur)

/-- Python `str.split()` with no argument. -/
def splitWs (s : String) : List String := (splitWsAux s.data []).map String.mk

/-- Python `sep.join(parts)`. -/
def joinSep (sep : String) : List String → String
  | [] => ""
  | [x] => x
  | x :: y :: ys => x ++ sep ++ joinSep sep (y :: ys)

/-- Python string comparison (`<` on code points, lexicographic,
shorter prefix first), as a Boolean `≤`. -/
def leB : List Char → List Char → Bool
  | [], _ => true
  | _ :: _, [] => false
  | a :: as, b :: bs =>
    if a.toNat < b.toNat then true
    else if b.toNat < a.toNat then false
    else leB as bs

/-- Python `≤` on strings. -/
def strLe (a b : String) : Prop := leB a.data b.data = true

instance : DecidableRel strLe := fun a b => by
  unfold strLe; infer_instance

instance : IsTotal String strLe := by
  constructor
  intro a b
  show leB a.data b.data = true ∨ leB b.data a.data = true
  induction a.data generalizing b with
  | nil => left; rfl
  | cons x xs ih =>
    match b, b.data with
    | _, [] => right; rfl
    | _, y :: ys =>
      by_cases hxy : x.toNat < y.toNat
      · left; simp [leB, hxy]
      · by_cases hyx : y.toNat < x.toNat
        · right; simp [leB, hyx, hxy]
        · have := ih ⟨ys⟩
          simp [leB, hxy, hyx]
          simpa using this

/-- Python `str.replace(a, b)` for one-character arguments. -/
def replaceCh (a b : Char) (s : String) : String :=
  ⟨s.data.map (fun c => if c = a then b else c)⟩

instance : IsTrans String strLe := by
  constructor
  intro a b c
  show leB a.data b.data = true → leB b.data c.data = true → leB a.data c.data = true
  induction a.data generalizing b c with
  | nil => intro _ _; rfl
  | cons x xs ih =>
    match b, b.data, c, c.data with
    | _, [], _, _ => intro h; exact absurd h (by simp [leB])
    | _, y :: ys, _, [] => intro _ h; exact absurd h (by simp [leB])
    | _, y :: ys, _, z :: zs =>
      intro h1 h2
      simp only [leB] at h1 h2 ⊢
      split at h1
      · split at h2
        · simp [show x.toNat < z.toNat by omega]
        · split at h2
          · exact absurd h2 (by simp)
          · have : x.toNat < z.toNat := by omega
            simp [this]
      · split at h1
        · exact absurd h1 (by simp)
        · split at h2
          · have : x.toNat < z.toNat := by omega
            simp [this]
          · split at h2
            · exact absurd h2 (by simp)
            · have hxz : ¬ x.toNat < z.toNat := by omega
              have hzx : ¬ z.toNat < x.toNat := by omega
              simp only [hxz, if_false, hzx]
              exact ih ⟨ys⟩ ⟨zs⟩ h1 h2

/-- Python `sorted(l, key=k)` as a relation: compare the keys. -/
def keyLe (k : String → String) (a b : String) : Prop := strLe (k a) (k b)

instance (k : String → String) : DecidableRel (keyLe k) :=
  fun a b => inferInstanceAs (Decidable (strLe (k a) (k b)))

instance (k : String → String) : IsTotal String (keyLe k) :=
  ⟨fun a b => IsTotal.total (r := strLe) (k a) (k b)⟩

instance (k : String → String) : IsTrans String (keyLe k) :=
  ⟨fun _ _ _ h1 h2 => IsTrans.trans (r := strLe) _ _ _ h1 h2⟩

end Py

namespace Utils

/-- Embeds `Utilities/utils.py`, `sort_wordlist` (lines 497-529).  The wordlist
file is modelled as its list of lines (`readlines` of the content the
script writes back, a newline-join of the names).  The names are
filtered for blank lines, title-cased and stripped, sorted, and written
back.  Result: (the file lines after the rewrite, the returned list);
the script returns the same `sorted_names` it writes. -/
def sort_wordlist (file : List String) : List String × List String :=
  let sorted_names := List.insertionSort Py.strLe
    ((file.filter (fun n => !(Py.isBlank n))).map (fun n => Py.strip (Py.title n)))
  (sorted_names, sorted_names)

/-- Result of `Utilities/utils.py`, `sort_csv` (lines 446-491):
`written lines` when the file is rewritten, `exited 1` for the guarded
`exit(1)` paths, `crashed` when the sort key raises an uncaught
IndexError (a data row without a second comma-separated field while the
first data row's comma count is not 1), in which case nothing is
written. -/
inductive SortCsvResult
  | written (lines : List String)
  | exited (code : Nat)
  | crashed
deriving DecidableEq

/-- Embeds `Utilities/utils.py`, `sort_csv` (lines 446-491).  The header line
is popped and stripped; the remaining lines are stripped and blank ones
dropped; when the first data row has exactly one comma the data rows
are sorted as whole lines, otherwise by the stripped second
comma-separated field; finally header and sorted rows are written
back. -/
def sort_csv (file : List String) : SortCsvResult :=
  match file with
  | [] => .exited 1
  | h :: rows =>
    let header := Py.strip h
    match (rows.map Py.strip).filter (fun r => !(r == "")) with
    | [] => .exited 1
    | d :: ds =>
      if Py.countCh ',' d = 1 then
        .written (header :: List.insertionSort Py.strLe (d :: ds))
      else if (d :: ds).any (fun r => (Py.splitCh ',' r).length < 2) then
        .crashed
      else
        .written (header :: List.insertionSort
          (Py.keyLe (fun r => Py.strip ((Py.splitCh ',' r).getD 1 ""))) (d :: ds))

end Utils

namespace EmailSender

/-- One parsed data row of the recipients CSV, as `csv.DictReader`
presents it: a missing value (a row shorter than the header, or a
column absent from the header) is `none`; an empty field is
`some ""`. -/
structure Row where
  fullName : Option String
  email : Option String
  attachments : Option String
deriving DecidableEq

/-- The row test of `check_csv` (utils.py lines 210-215): a row is
collected as invalid when Full Name or Email is `None` or strips to the
empty string. -/
def rowInvalid (r : Row) : Bool :=
  r.fullName.isNone || r.email.isNone ||
  Py.strip (r.fullName.getD "") == "" || Py.strip (r.email.getD "") == ""

/-- Embeds `Utilities/utils.py`, `check_csv` (lines 158-219), modelled on the
parsed data rows: exit(1) when there are no data rows, and exit(1)
when any row has a missing or blank Full Name or Email.  The
column-presence checks are not modelled; the claims below quantify
over CSVs that have the required columns. -/
def check_csv (rows : List Row) : Except Nat Unit :=
  if rows.isEmpty then .error 1
  else if rows.any rowInvalid then .error 1
  else .ok ()

/-- Embeds `Utilities/utils.py`, `check_attachments` (lines 51-120) in mode
"Common": exit(1) when the first data row's Attachments value is
missing (`first_row["Attachments"]` raises KeyError, which also
terminates the run) or empty, and exit(1) when any listed attachment
is blank or does not exist under the attachments directory. -/
def check_attachments_common (rows : List Row) (fsExists : String → Bool)
    (attachmentsDir : String) : Except Nat Unit :=
  match rows with
  | [] => .ok ()
  | first :: _ =>
    match first.attachments with
    | none => .error 1
    | some a =>
      if a = "" then .error 1
      else if (Py.splitCh ';' a).any (fun att =>
          Py.strip att == "" || !(fsExists (attachmentsDir ++ "/" ++ att))) then
        .error 1
      else .ok ()

/-- Embeds `check_attachments` for an arbitrary mode.  The "Respective" and
"Other" branches only ever print and exit; they do not alter the rows
and no claim below depends on their exit condition, so they are
modelled as passing. -/
def check_attachments (mode : String) (rows : List Row) (fsExists : String → Bool)
    (attachmentsDir : String) : Except Nat Unit :=
  if mode = "Common" then check_attachments_common rows fsExists attachmentsDir
  else .ok ()

/-- Outcome of one SMTP submission attempt for one recipient. -/
inductive SmtpOutcome
  | ok
  | authFail
  | dnsFail
  | sendFail
deriving DecidableEq

/-- Logged / printed events of the send loop that the claims refer
to. -/
inductive Event
  | attachMissing (path : String)
  | sent (recipient : String)
  | sendFailed (recipient : String)
  | rowError (index : Nat)
deriving DecidableEq

/-- Result of `send_email` for one recipient: `cont` (control returns
to the loop) or `fatal` (exit(1) inside `send_email`; SystemExit is not
an `Exception`, so no enclosing handler catches it). -/
inductive SendResult
  | cont (events : List Event)
  | fatal (code : Nat) (events : List Event)
deriving DecidableEq

/-- Result of the whole bulk send. -/
inductive RunOutcome
  | finished (events : List Event)
  | exited (code : Nat) (events : List Event)
deriving DecidableEq

/-- The value bound to `attachments` in the send loop: a list of paths
(modes Respective / Common / None) or, in mode "Other", a single
name-derived filename string. -/
inductive AttValue
  | strs (paths : List String)
  | str (path : String)
deriving DecidableEq

/-- The attachment phase of `send_email` (lines 41-56): each listed
non-blank attachment is attached; a missing one is logged by
`add_attachment` (utils.py lines 46-48) and does not stop the send.
The `.str` case is the automation branch (lines 42-49), which joins
the generated-certificates directory. -/
def attachEvents (fsExists : String → Bool) (attachmentsDir genCertsDir : String) :
    AttValue → List Event
  | .str p =>
    let path := genCertsDir ++ "/" ++ p
    if fsExists path then [] else [.attachMissing path]
  | .strs ps =>
    (ps.filter (fun p => !(Py.strip p == ""))).filterMap
      (fun p =>
        let path := attachmentsDir ++ "/" ++ p
        if fsExists path then none else some (.attachMissing path))

/-- Embeds `Email_Sender/send_email.py`, `send_email` (lines 19-84).
`smtp` is this attempt's outcome at the SMTP server.
`SMTPAuthenticationError` and `gaierror` call exit(1) (SystemExit,
fatal); any other send failure is logged and the function returns
normally. -/
def send_email (fsExists : String → Bool) (attachmentsDir genCertsDir : String)
    (recipient : String) (atts : AttValue) (smtp : SmtpOutcome) : SendResult :=
  match smtp with
  | .authFail => .fatal 1 (attachEvents fsExists attachmentsDir genCertsDir atts)
  | .dnsFail => .fatal 1 (attachEvents fsExists attachmentsDir genCertsDir atts)
  | .sendFail => .cont (attachEvents fsExists attachmentsDir genCertsDir atts
      ++ [.sendFailed recipient])
  | .ok => .cont (attachEvents fsExists attachmentsDir genCertsDir atts
      ++ [.sent recipient])

/-- The common attachment list computed before the loop in mode
"Common" (`send_bulk_emails`, lines 106-113): the semicolon-split of
the first data row's Attachments value when that value is present and
nonempty, `[]` otherwise.  With no data rows the variable is never
used, since the loop body never runs. -/
def commonAttachments (rows : List Row) : List String :=
  match rows with
  | [] => []
  | first :: _ =>
    match first.attachments with
    | none => []
    | some a => if a = "" then [] else Py.splitCh ';' a

/-- The per-row attachment determination of the send loop
(`send_bulk_emails`, lines 130-148).  `name` is the loop's `name`
variable.  Returns `none` for an invalid mode, in which case the loop
calls exit(1). -/
def rowAttachments (mode : String) (common : List String) (name : String)
    (r : Row) : Option AttValue :=
  if mode = "Respective" then
    some (.strs (match r.attachments with
      | none => []
      | some a =>
        if a = "" then []
        else if Py.strip a == "" then []
        else Py.splitCh ';' a))
  else if mode = "Common" then some (.strs common)
  else if mode = "Other" then
    some (.str (Py.replaceCh ' ' '_' (Py.strip (Py.title name)) ++ "_certificate.pdf"))
  else if mode = "None" then some (.strs [])
  else none

/-- One iteration of the send loop (`send_bulk_emails`, lines 121-161):
a row with a `None` Email or Full Name raises ValueError, which the
per-row handler logs before the loop continues; an invalid mode calls
exit(1); otherwise the row's email is submitted. -/
def processRow (fsExists : String → Bool) (attachmentsDir genCertsDir mode : String)
    (common : List String) (smtp : SmtpOutcome) (index : Nat) (r : Row) : SendResult :=
  if r.email.isNone || r.fullName.isNone then
    .cont [.rowError index]
  else
    let recipient := Py.lower (Py.strip (r.email.getD ""))
    let name := Py.title (Py.strip (r.fullName.getD ""))
    match rowAttachments mode common name r with
    | none => .fatal 1 []
    | some atts => send_email fsExists attachmentsDir genCertsDir recipient atts smtp

/-- Prefix earlier events onto a loop outcome. -/
def prependEvents (evs : List Event) : RunOutcome → RunOutcome
  | .finished evs2 => .finished (evs ++ evs2)
  | .exited c evs2 => .exited c (evs ++ evs2)

/-- The send loop.  `p` is the 0-based loop position (indexing the
per-attempt SMTP outcome), `ri` the printed row index, which the
script only increments after a successful `send_email` return (line
157), so a ValueError row does not advance it. -/
def send_bulk_aux (fsExists : String → Bool) (attachmentsDir genCertsDir mode : String)
    (common : List String) (smtp : Nat → SmtpOutcome) :
    Nat → Nat → List Row → RunOutcome
  | _, _, [] => .finished []
  | p, ri, r :: rest =>
    match processRow fsExists attachmentsDir genCertsDir mode common (smtp p) ri r with
    | .fatal c evs => .exited c evs
    | .cont evs =>
      let ri2 := if r.email.isNone || r.fullName.isNone then ri else ri + 1
      prependEvents evs
        (send_bulk_aux fsExists attachmentsDir genCertsDir mode common smtp (p + 1) ri2 rest)

/-- Embeds `Email_Sender/send_email.py`, `send_bulk_emails` (lines 87-171):
compute the common attachments, then run the loop with row index
starting at 2. -/
def send_bulk_emails (fsExists : String → Bool) (attachmentsDir genCertsDir mode : String)
    (smtp : Nat → SmtpOutcome) (rows : List Row) : RunOutcome :=
  send_bulk_aux fsExists attachmentsDir genCertsDir mode (commonAttachments rows) smtp 0 2 rows

/-- The non-automation `__main__` flow of `send_email.py` from
`check_csv` on (lines 235-250): `check_csv`, `check_attachments`, then
`send_bulk_emails`.  `sort_csv` runs between the two checks and only
permutes the already validated spreadsheet lines; it is not modelled
here because the claims below about this flow only concern whether the
run reaches the loop at all. -/
def email_flow (fsExists : String → Bool) (attachmentsDir genCertsDir mode : String)
    (smtp : Nat → SmtpOutcome) (rows : List Row) : RunOutcome :=
  match check_csv rows with
  | .error c => .exited c []
  | .ok _ =>
    match check_attachments mode rows fsExists attachmentsDir with
    | .error c => .exited c []
    | .ok _ => send_bulk_emails fsExists attachmentsDir genCertsDir mode smtp rows

/-- Does a row reach the SMTP submission?  (Both Email and Full Name
values present, so the ValueError branch is not taken.) -/
def attempts (r : Row) : Bool := !(r.email.isNone || r.fullName.isNone)

/-- The recipient address extracted from a row (line 127). -/
def recipientOf (r : Row) : String := Py.lower (Py.strip (r.email.getD ""))

/-- The terminal logged event of one loop iteration: an email sent, a
send failure, or a row error.  attach-missing events are additional
events of an iteration, not terminal ones. -/
def isTerminal : Event → Bool
  | .sent _ => true
  | .sendFailed _ => true
  | .rowError _ => true
  | .attachMissing _ => false

/-- How many rows a list of loop events accounts for. -/
def handledCount (evs : List Event) : Nat := (evs.filter isTerminal).length

instance : Inhabited Row := ⟨⟨none, none, none⟩⟩

end EmailSender

namespace CertificateGenerator

/-- Embeds `Certificate_Generator/certificate_generator.py`, `read_wordlist`
(lines 98-115): read and return the file's lines.  This local function
(not `Utilities.utils.read_wordlist`) is the one `create_certificate`
calls; it only opens the file for reading. -/
def read_wordlist (file : List String) : List String := file

/-- The output filename derived from a name in `create_certificate`
(lines 146 and 174): join the whitespace-split words with underscores
and append the suffix. -/
def certFileName (name : String) : String :=
  Py.joinSep "_" (Py.splitWs name) ++ "_certificate.pdf"

/-- Embeds `create_certificate` (lines 119-178): for each line of the
wordlist, strip it, skip it when blank, and write
`{filename}_certificate.pdf` into the output directory.  Result: the
written file names, in write order (a later write to the same name
overwrites the earlier file). -/
def create_certificate (wordlist_contents : List String) : List String :=
  wordlist_contents.filterMap (fun line =>
    let name := Py.strip line
    if name = "" then none else some (certFileName name))

/-- The certificate flow's effect relative to the wordlist file:
`read_wordlist` never writes, so the pair is (the wordlist file after
the run, the certificate files written). -/
def certificate_flow (wordlist : List String) : List String × List String :=
  (wordlist, create_certificate (read_wordlist wordlist))

end CertificateGenerator

namespace QRCodeGenerator

/-- The character class of the regex at qrcode_generator.py line 444
(raw string: bracket, backslash, slash, colon, star, question mark,
double quote, less than, greater than, bar, bracket).  Inside a Python
regex character class the two-character sequence backslash slash is an
escaped slash, so the class holds exactly these eight characters and
not the backslash. -/
def FORBIDDEN_CHARS : List Char := ['/', ':', '*', '?', '"', '<', '>', '|']

/-- Embeds `re.search(FORBIDDEN_CHARS, filename)` as a Boolean. -/
def containsForbidden (s : String) : Bool :=
  s.data.any (fun c => FORBIDDEN_CHARS.contains c)

/-- The filename gate of `generate_qrcode` (lines 390-392): exit(1)
when the filename matches the class. -/
def filename_gate (filename : String) : Except Nat Unit :=
  if containsForbidden filename then .error 1 else .ok ()

/-- The candidate output paths tried by `generate_qrcode` (lines
404-410): the plain `{filename}.{extension}` first, then
`{filename}(1).{extension}`, `{filename}(2).{extension}`, ...
(The directory prefix is common to all candidates and is dropped.) -/
def qrCandidate (filename extension : String) : Nat → String
  | 0 => filename ++ "." ++ extension
  | c + 1 => filename ++ "(" ++ Nat.repr (c + 1) ++ ")." ++ extension

/-- The collision loop of lines 407-410, with explicit fuel: try
candidate `c`; while it exists, move to the next counter. -/
def resolveGo (existing : List String) (filename extension : String) :
    Nat → Nat → String
  | 0, c => qrCandidate filename extension c
  | fuel + 1, c =>
    if qrCandidate filename extension c ∈ existing then
      resolveGo existing filename extension fuel (c + 1)
    else qrCandidate filename extension c

/-- The path the QR image is saved to, over a finite list of existing
paths.  `existing.length + 1` tries always suffice, because the
candidates are pairwise distinct. -/
def resolve_path (existing : List String) (filename extension : String) : String :=
  resolveGo existing filename extension (existing.length + 1) 0

/-- Embeds `generate_qrcode` from the filename prompt on (lines 384-418): the
forbidden-character gate, the default name, and collision resolution;
an `ok` result is the path the image is saved to. -/
def generate_qrcode (existing : List String) (filename extension : String) :
    Except Nat String :=
  match filename_gate filename with
  | .error c => .error c
  | .ok _ =>
    let fname := if filename = "" then "qrcode" else filename
    .ok (resolve_path existing fname extension)

end QRCodeGenerator

namespace Digits

/-- The decimal digit characters of `n`, most significant first: the
list `Nat.toDigits 10 n` produces. -/
def rep (n : Nat) : List Char :=
  if n < 10 then [Nat.digitChar n]
  else rep (n / 10) ++ [Nat.digitChar (n % 10)]
decreasing_by exact Nat.div_lt_self (by omega) (by omega)

/-- Numeric value of a decimal digit character. -/
def digitVal (c : Char) : Nat := c.toNat - 48

/-- Decode a most-significant-first decimal digit string. -/
def decode (l : List Char) : Nat :=
  l.foldl (fun acc c => acc * 10 + digitVal c) 0

end Digits


/-- Decidable equality for `Except` results, used to evaluate the
models at concrete inputs. -/
instance {e a : Type} [DecidableEq e] [DecidableEq a] : DecidableEq (Except e a)
  | .error x, .error y => decidable_of_iff (x = y) (by simp)
  | .error _, .ok _ => isFalse (by intro h; cases h)
  | .ok _, .error _ => isFalse (by intro h; cases h)
  | .ok x, .ok y => decidable_of_iff (x = y) (by simp)

/-! ## Theorems

First, facts about the embedded Python string primitives. -/

namespace Py

theorem toNat_ofNat_valid {n : Nat} (h : n.isValidChar) : (Char.ofNat n).toNat = n := by
  simp only [Char.ofNat]
  rw [dif_pos h]
  rfl

theorem toNat_toUpper (c : Char) :
    c.toUpper.toNat = if 97 ≤ c.toNat ∧ c.toNat ≤ 122 then c.toNat - 32 else c.toNat := by
  by_cases h : 97 ≤ c.toNat ∧ c.toNat ≤ 122
  · rw [if_pos h]
    simp only [Char.toUpper, ge_iff_le]
    rw [if_pos h]
    exact toNat_ofNat_valid (Or.inl (by omega))
  · rw [if_neg h]
    simp only [Char.toUpper, ge_iff_le]
    rw [if_neg h]

theorem toNat_toLower (c : Char) :
    c.toLower.toNat = if 65 ≤ c.toNat ∧ c.toNat ≤ 90 then c.toNat + 32 else c.toNat := by
  by_cases h : 65 ≤ c.toNat ∧ c.toNat ≤ 90
  · rw [if_pos h]
    simp only [Char.toLower, ge_iff_le]
    rw [if_pos h]
    exact toNat_ofNat_valid (Or.inl (by omega))
  · rw [if_neg h]
    simp only [Char.toLower, ge_iff_le]
    rw [if_neg h]

theorem toUpper_id_of {c : Char} (h : ¬(97 ≤ c.toNat ∧ c.toNat ≤ 122)) :
    c.toUpper = c := by
  simp only [Char.toUpper, ge_iff_le]
  rw [if_neg h]

theorem toLower_id_of {c : Char} (h : ¬(65 ≤ c.toNat ∧ c.toNat ≤ 90)) :
    c.toLower = c := by
  simp only [Char.toLower, ge_iff_le]
  rw [if_neg h]

theorem isSpace_toUpper (c : Char) : isSpace c.toUpper = isSpace c := by
  have h := toNat_toUpper c
  by_cases hc : 97 ≤ c.toNat ∧ c.toNat ≤ 122
  · rw [if_pos hc] at h
    unfold isSpace
    rw [h, decide_eq_decide]
    omega
  · rw [toUpper_id_of hc]

theorem isSpace_toLower (c : Char) : isSpace c.toLower = isSpace c := by
  have h := toNat_toLower c
  by_cases hc : 65 ≤ c.toNat ∧ c.toNat ≤ 90
  · rw [if_pos hc] at h
    unfold isSpace
    rw [h, decide_eq_decide]
    omega
  · rw [toLower_id_of hc]

theorem isAlphaCh_toUpper (c : Char) : isAlphaCh c.toUpper = isAlphaCh c := by
  have h := toNat_toUpper c
  by_cases hc : 97 ≤ c.toNat ∧ c.toNat ≤ 122
  · rw [if_pos hc] at h
    unfold isAlphaCh
    rw [h, decide_eq_decide]
    omega
  · rw [toUpper_id_of hc]

theorem isAlphaCh_toLower (c : Char) : isAlphaCh c.toLower = isAlphaCh c := by
  have h := toNat_toLower c
  by_cases hc : 65 ≤ c.toNat ∧ c.toNat ≤ 90
  · rw [if_pos hc] at h
    unfold isAlphaCh
    rw [h, decide_eq_decide]
    omega
  · rw [toLower_id_of hc]

theorem toUpper_toUpper (c : Char) : c.toUpper.toUpper = c.toUpper := by
  by_cases h : 97 ≤ c.toNat ∧ c.toNat ≤ 122
  · have h2 := toNat_toUpper c
    rw [if_pos h] at h2
    exact toUpper_id_of (by rw [h2]; omega)
  · simp only [toUpper_id_of h]

theorem toLower_toLower (c : Char) : c.toLower.toLower = c.toLower := by
  by_cases h : 65 ≤ c.toNat ∧ c.toNat ≤ 90
  · have h2 := toNat_toLower c
    rw [if_pos h] at h2
    exact toLower_id_of (by rw [h2]; omega)
  · simp only [toLower_id_of h]

theorem isSpace_titleChar (b : Bool) (c : Char) : isSpace (titleChar b c) = isSpace c := by
  unfold titleChar
  by_cases ha : isAlphaCh c
  · rw [if_pos ha]
    cases b
    · exact isSpace_toUpper c
    · exact isSpace_toLower c
  · rw [if_neg ha]

theorem isAlphaCh_titleChar (b : Bool) (c : Char) :
    isAlphaCh (titleChar b c) = isAlphaCh c := by
  unfold titleChar
  by_cases ha : isAlphaCh c
  · rw [if_pos ha]
    cases b
    · exact isAlphaCh_toUpper c
    · exact isAlphaCh_toLower c
  · rw [if_neg ha]

theorem titleChar_titleChar (b : Bool) (c : Char) :
    titleChar b (titleChar b c) = titleChar b c := by
  by_cases ha : isAlphaCh c
  · have ha2 : isAlphaCh (titleChar b c) = true := by
      rw [isAlphaCh_titleChar, ha]
    show (if isAlphaCh (titleChar b c) = true then _ else _) = _
    rw [if_pos ha2]
    unfold titleChar
    rw [if_pos ha]
    cases b
    · simp only [Bool.false_eq_true, if_false]
      exact toUpper_toUpper c
    · simp only [if_true]
      exact toLower_toLower c
  · unfold titleChar
    rw [if_neg ha, if_neg ha]

theorem isSpace_not_alpha {c : Char} (h : isSpace c = true) : isAlphaCh c = false := by
  unfold isSpace at h
  unfold isAlphaCh
  rw [decide_eq_true_iff] at h
  rw [decide_eq_false_iff_not]
  omega

end Py

theorem map_eq_self_of_mem {α : Type} {l : List α} {f : α → α}
    (h : ∀ a ∈ l, f a = a) : l.map f = l := by
  induction l with
  | nil => rfl
  | cons x xs ih =>
    rw [List.map_cons, h x (List.mem_cons_self x xs),
      ih (fun a ha => h a (List.mem_cons_of_mem x ha))]

namespace Py

theorem titleAux_eq_nil_iff (b : Bool) (l : List Char) : titleAux b l = [] ↔ l = [] := by
  cases l <;> simp [titleAux]

theorem stripR_eq_nil_iff (l : List Char) :
    stripR l = [] ↔ ∀ c ∈ l, isSpace c = true := by
  induction l with
  | nil => simp [stripR]
  | cons c cs ih =>
    simp only [stripR]
    cases h : stripR cs with
    | nil =>
      have hcs : ∀ x ∈ cs, isSpace x = true := ih.mp h
      by_cases hc : isSpace c = true
      · simp only [if_pos hc]
        constructor
        · intro _ x hx
          rcases List.mem_cons.mp hx with heq | hmem
          · exact heq ▸ hc
          · exact hcs x hmem
        · intro _; trivial
      · simp only [if_neg hc]
        constructor
        · intro habs; exact absurd habs (by simp)
        · intro hall
          exact absurd (hall c (List.mem_cons_self c cs)) hc
    | cons d ds =>
      constructor
      · intro habs; exact absurd habs (by simp)
      · intro hall
        have hnil : stripR cs = [] :=
          ih.mpr (fun x hx => hall x (List.mem_cons_of_mem c hx))
        rw [hnil] at h
        exact absurd h (by simp)

theorem allSpace_stripL (l : List Char) :
    (∀ c ∈ stripL l, isSpace c = true) ↔ (∀ c ∈ l, isSpace c = true) := by
  induction l with
  | nil => simp [stripL]
  | cons c cs ih =>
    by_cases hc : isSpace c = true
    · rw [stripL, List.dropWhile_cons_of_pos hc]
      constructor
      · intro h x hx
        rcases List.mem_cons.mp hx with heq | hmem
        · exact heq ▸ hc
        · exact ih.mp h x hmem
      · intro h x hx
        exact ih.mpr (fun y hy => h y (List.mem_cons_of_mem c hy)) x hx
    · rw [stripL, List.dropWhile_cons_of_neg hc]

theorem strip_eq_nil_iff (l : List Char) :
    stripChars l = [] ↔ ∀ c ∈ l, isSpace c = true := by
  unfold stripChars
  rw [stripR_eq_nil_iff, allSpace_stripL]

theorem allSpace_titleAux (b : Bool) (l : List Char) :
    (∀ c ∈ titleAux b l, isSpace c = true) ↔ (∀ c ∈ l, isSpace c = true) := by
  induction l generalizing b with
  | nil => simp [titleAux]
  | cons c cs ih =>
    simp only [titleAux, List.forall_mem_cons, isSpace_titleChar]
    exact and_congr Iff.rfl (ih (isAlphaCh c))

theorem stripL_cons_of_space {c : Char} (cs : List Char) (hc : isSpace c = true) :
    stripL (c :: cs) = stripL cs := by
  rw [stripL, List.dropWhile_cons_of_pos hc]; rfl

theorem stripL_cons_of_nonspace {c : Char} (cs : List Char) (hc : ¬ isSpace c = true) :
    stripL (c :: cs) = c :: cs := by
  rw [stripL, List.dropWhile_cons_of_neg hc]

theorem titleChar_of_space {b : Bool} {c : Char} (hc : isSpace c = true) :
    titleChar b c = c := by
  unfold titleChar
  rw [if_neg (by rw [isSpace_not_alpha hc]; simp)]

theorem stripL_titleAux (l : List Char) :
    stripL (titleAux false l) = titleAux false (stripL l) := by
  induction l with
  | nil => rfl
  | cons c cs ih =>
    by_cases hc : isSpace c = true
    · have hca : isAlphaCh c = false := isSpace_not_alpha hc
      simp only [titleAux, titleChar_of_space hc, hca]
      rw [stripL_cons_of_space _ hc, stripL_cons_of_space _ hc]
      exact ih
    · have hc2 : ¬ isSpace (titleChar false c) = true := by
        rw [isSpace_titleChar]; exact hc
      simp only [titleAux]
      rw [stripL_cons_of_nonspace _ hc2, stripL_cons_of_nonspace _ hc]
      simp [titleAux]

theorem stripR_titleAux (b : Bool) (l : List Char) :
    stripR (titleAux b l) = titleAux b (stripR l) := by
  induction l generalizing b with
  | nil => rfl
  | cons c cs ih =>
    simp only [titleAux]
    cases h : stripR cs with
    | nil =>
      have h2 : stripR (titleAux (isAlphaCh c) cs) = [] := by
        rw [ih (isAlphaCh c), h]; rfl
      simp only [stripR, h2, h, isSpace_titleChar]
      by_cases hc : isSpace c = true
      · simp [hc, titleAux]
      · simp [hc, titleAux]
    | cons d ds =>
      have h2 : stripR (titleAux (isAlphaCh c) cs) = titleAux (isAlphaCh c) (d :: ds) := by
        rw [ih (isAlphaCh c), h]
      simp only [stripR, h2, h, titleAux]

theorem titleAux_idem (b : Bool) (l : List Char) :
    titleAux b (titleAux b l) = titleAux b l := by
  induction l generalizing b with
  | nil => rfl
  | cons c cs ih =>
    simp only [titleAux, titleChar_titleChar, isAlphaCh_titleChar]
    exact congrArg _ (ih (isAlphaCh c))

theorem stripR_stripR (l : List Char) : stripR (stripR l) = stripR l := by
  induction l with
  | nil => rfl
  | cons c cs ih =>
    simp only [stripR]
    cases h : stripR cs with
    | nil =>
      by_cases hc : isSpace c = true
      · simp [hc, stripR]
      · simp [stripR, hc]
    | cons d ds =>
      have ih2 : stripR (d :: ds) = d :: ds := h ▸ ih
      show stripR (c :: d :: ds) = c :: d :: ds
      rw [stripR, ih2]

theorem head_stripL (l : List Char) :
    stripL l = [] ∨ ∃ c cs, stripL l = c :: cs ∧ isSpace c = false := by
  induction l with
  | nil => left; rfl
  | cons c cs ih =>
    by_cases hc : isSpace c = true
    · rw [stripL_cons_of_space _ hc]; exact ih
    · right
      exact ⟨c, cs, stripL_cons_of_nonspace _ hc, Bool.not_eq_true _ ▸ hc⟩

theorem stripR_cons_nonspace {c : Char} (cs : List Char) (hc : isSpace c = false) :
    ∃ ds, stripR (c :: cs) = c :: ds := by
  simp only [stripR]
  cases h : stripR cs with
  | nil => exact ⟨[], by simp [hc]⟩
  | cons d ds => exact ⟨d :: ds, rfl⟩

theorem strip_strip (l : List Char) : stripChars (stripChars l) = stripChars l := by
  unfold stripChars
  rcases head_stripL l with h | ⟨c, cs, h, hc⟩
  · rw [h]; rfl
  · rw [h]
    rcases stripR_cons_nonspace cs hc with ⟨ds, hds⟩
    rw [hds, stripL_cons_of_nonspace _ (by rw [hc]; simp), ← hds]
    exact stripR_stripR _

theorem stripChars_titleChars (l : List Char) :
    stripChars (titleChars l) = titleChars (stripChars l) := by
  unfold stripChars titleChars
  rw [stripL_titleAux, stripR_titleAux]

theorem stripTitle_idem (l : List Char) :
    stripChars (titleChars (stripChars (titleChars l))) = stripChars (titleChars l) := by
  calc stripChars (titleChars (stripChars (titleChars l)))
      = titleChars (stripChars (stripChars (titleChars l))) := stripChars_titleChars _
    _ = titleChars (stripChars (titleChars l)) := by rw [strip_strip]
    _ = stripChars (titleChars (titleChars l)) := (stripChars_titleChars _).symm
    _ = stripChars (titleChars l) := by
        rw [show titleChars (titleChars l) = titleChars l from titleAux_idem false l]

theorem strip_title_strip_title (s : String) :
    strip (title (strip (title s))) = strip (title s) :=
  congrArg String.mk (stripTitle_idem s.data)

theorem isBlank_iff (s : String) : isBlank s = true ↔ stripChars s.data = [] := by
  unfold isBlank strip
  rw [beq_iff_eq]
  exact ⟨fun h => congrArg String.data h, fun h => congrArg String.mk h⟩

theorem isBlank_strip_title (x : String) :
    isBlank (strip (title x)) = isBlank x := by
  have h1 : isBlank (strip (title x)) = true ↔ isBlank x = true := by
    rw [isBlank_iff, isBlank_iff]
    show stripChars (stripChars (titleChars x.data)) = [] ↔ _
    rw [strip_strip, strip_eq_nil_iff, strip_eq_nil_iff]
    exact allSpace_titleAux false x.data
  cases hx : isBlank x
  · cases hy : isBlank (strip (title x))
    · rfl
    · exact absurd (hx ▸ h1.mp hy) (by simp)
  · exact h1.mpr hx

end Py

/-! ## Claims -/

/-- A helper characterization: `sort_wordlist` is the identity pair on a
sorted list of names that are all non-blank and fixed by
title-then-strip. -/
theorem sort_wordlist_fixed (t : List String)
    (h : ∀ y ∈ t, Py.isBlank y = false ∧ Py.strip (Py.title y) = y)
    (hsort : List.Sorted Py.strLe t) : Utils.sort_wordlist t = (t, t) := by
  simp only [Utils.sort_wordlist]
  have h1 : t.filter (fun n => !(Py.isBlank n)) = t :=
    List.filter_eq_self.mpr (fun y hy => by rw [(h y hy).1]; rfl)
  rw [h1, map_eq_self_of_mem (fun y hy => (h y hy).2), hsort.insertionSort_eq]

/-- C5: `sort_wordlist` is idempotent: applying it to the wordlist file
produced by a first application leaves the file content unchanged and
returns the same list of names. -/
theorem sort_wordlist_idempotent (file : List String) :
    Utils.sort_wordlist ((Utils.sort_wordlist file).fst) = Utils.sort_wordlist file := by
  have hfs : ∀ y ∈ (Utils.sort_wordlist file).fst,
      ∃ x, y = Py.strip (Py.title x) ∧ Py.isBlank x = false := by
    intro y hy
    simp only [Utils.sort_wordlist, List.mem_insertionSort, List.mem_map,
      List.mem_filter] at hy
    rcases hy with ⟨x, ⟨_, hxb⟩, hxy⟩
    exact ⟨x, hxy.symm, by simpa using hxb⟩
  have hprops : ∀ y ∈ (Utils.sort_wordlist file).fst,
      Py.isBlank y = false ∧ Py.strip (Py.title y) = y := by
    intro y hy
    rcases hfs y hy with ⟨x, rfl, hxb⟩
    exact ⟨by rw [Py.isBlank_strip_title, hxb], Py.strip_title_strip_title x⟩
  have hsort : List.Sorted Py.strLe (Utils.sort_wordlist file).fst := by
    simp only [Utils.sort_wordlist]
    exact List.sorted_insertionSort _ _
  have hpair : Utils.sort_wordlist file
      = ((Utils.sort_wordlist file).fst, (Utils.sort_wordlist file).fst) := rfl
  rw [sort_wordlist_fixed _ hprops hsort, hpair]

/-- C4 counterexample: running the certificate flow on the wordlist
file with lines B, A leaves the file as B, A, while a sorting rewrite
(what `sort_wordlist` produces) would give A, B; so the certificate
flow does not rewrite the wordlist in sorted order. -/
theorem certificate_flow_does_not_sort_counterexample :
    (CertificateGenerator.certificate_flow ["B", "A"]).fst = ["B", "A"] ∧
    (Utils.sort_wordlist ["B", "A"]).fst = ["A", "B"] ∧
    (CertificateGenerator.certificate_flow ["B", "A"]).fst
      ≠ (Utils.sort_wordlist ["B", "A"]).fst := by
  refine ⟨rfl, by decide, by decide⟩

/-- C4 amended: the certificate flow's `read_wordlist` (the local one
in certificate_generator.py) leaves the wordlist file unchanged; it is
the shared utility `sort_wordlist` - which the certificate generator
never calls - that sorts the title-cased stripped non-blank names and
rewrites a wordlist file in place, in sorted order. -/
theorem certificate_flow_wordlist_unchanged (wordlist : List String) :
    (CertificateGenerator.certificate_flow wordlist).fst = wordlist ∧
    CertificateGenerator.read_wordlist wordlist = wordlist ∧
    List.Sorted Py.strLe (Utils.sort_wordlist wordlist).fst ∧
    (Utils.sort_wordlist wordlist).fst = (Utils.sort_wordlist wordlist).snd := by
  refine ⟨rfl, rfl, ?_, rfl⟩
  simp only [Utils.sort_wordlist]
  exact List.sorted_insertionSort _ _

/-- C3 counterexample: a wordlist with exactly two distinct non-blank
names whose whitespace-separated words agree produces the same output
filename twice, so only one output file exists, not two. -/
theorem create_certificate_collision_counterexample :
    ("John Doe" : String) ≠ "John  Doe" ∧
    Py.isBlank "John Doe" = false ∧ Py.isBlank "John  Doe" = false ∧
    CertificateGenerator.create_certificate ["John Doe", "John  Doe"]
      = ["John_Doe_certificate.pdf", "John_Doe_certificate.pdf"] ∧
    (CertificateGenerator.create_certificate ["John Doe", "John  Doe"]).dedup.length
      = 1 := by
  refine ⟨by decide, by decide, by decide, by decide, by decide⟩


/-- The write list of `create_certificate`, spec-side formulation: one
write per non-blank line, named from the stripped line. -/
theorem create_certificate_eq (wordlist : List String) :
    CertificateGenerator.create_certificate wordlist
      = (wordlist.filter (fun l => !(Py.isBlank l))).map
          (fun l => CertificateGenerator.certFileName (Py.strip l)) := by
  induction wordlist with
  | nil => rfl
  | cons x xs ih =>
    simp only [CertificateGenerator.create_certificate, List.filterMap_cons] at ih ⊢
    by_cases hx : Py.strip x = ""
    · have hb : Py.isBlank x = true := by simp [Py.isBlank, hx]
      simp [hx, List.filter_cons, hb, ih]
    · have hb : Py.isBlank x = false := by simp [Py.isBlank, hx]
      simp [List.filter_cons, hb, ih, if_neg hx]

/-- C3 amended: the certificate flow performs one write per non-blank
name, each to `{words joined by underscores}_certificate.pdf`; the
number of writes is the number of non-blank names, and the number of
distinct output files is the number of non-blank names exactly when
the filename derivation is injective on them (names differing only in
whitespace collide on the same file). -/
theorem create_certificate_output (wordlist : List String) :
    CertificateGenerator.create_certificate wordlist
      = (wordlist.filter (fun l => !(Py.isBlank l))).map
          (fun l => CertificateGenerator.certFileName (Py.strip l)) ∧
    (CertificateGenerator.create_certificate wordlist).length
      = (wordlist.filter (fun l => !(Py.isBlank l))).length ∧
    ((CertificateGenerator.create_certificate wordlist).Nodup →
      (CertificateGenerator.create_certificate wordlist).dedup.length
        = (wordlist.filter (fun l => !(Py.isBlank l))).length) := by
  have h1 := create_certificate_eq wordlist
  refine ⟨h1, ?_, ?_⟩
  · rw [h1, List.length_map]
  · intro hnd
    rw [List.dedup_eq_self.mpr hnd, h1, List.length_map]

/-- C3 amended witness at a concrete wordlist. -/
theorem create_certificate_output_witness :
    (CertificateGenerator.create_certificate ["Ann Lee", "Bo"]).dedup.length
      = ((["Ann Lee", "Bo"] : List String).filter (fun l => !(Py.isBlank l))).length :=
  (create_certificate_output ["Ann Lee", "Bo"]).2.2 (by decide)

/-- C2 counterexample: a filename containing a backslash passes the QR
filename gate (the compiled character class does not contain the
backslash) and the image is saved, and the certificate flow writes an
output file for a name containing a question mark without any filename
check. -/
theorem forbidden_chars_counterexample :
    ('\\' ∈ ("a\\b" : String).data) ∧
    QRCodeGenerator.filename_gate "a\\b" = .ok () ∧
    QRCodeGenerator.generate_qrcode [] "a\\b" "png" = .ok "a\\b.png" ∧
    ('?' ∈ ("a?b" : String).data) ∧
    CertificateGenerator.create_certificate ["a?b"] = ["a?b_certificate.pdf"] := by
  refine ⟨by decide, by decide, by decide, by decide, by decide⟩

/-- C2 amended: the QR flow rejects the filename and exits before any
file is written exactly when it contains one of the eight characters
slash colon star question-mark quote less-than greater-than bar; the
backslash is not in the compiled class and does not cause rejection.
The certificate flow applies no forbidden-character check: every
non-blank name produces a write of its derived filename. -/
theorem forbidden_chars_policy (filename name : String) :
    (QRCodeGenerator.filename_gate filename = .error 1 ↔
      ∃ c ∈ filename.data, c ∈ QRCodeGenerator.FORBIDDEN_CHARS) ∧
    ((∃ c ∈ filename.data, c ∈ QRCodeGenerator.FORBIDDEN_CHARS) →
      ∀ existing extension,
        QRCodeGenerator.generate_qrcode existing filename extension = .error 1) ∧
    (Py.isBlank name = false →
      CertificateGenerator.create_certificate [name]
        = [CertificateGenerator.certFileName (Py.strip name)]) := by
  have hiff : QRCodeGenerator.filename_gate filename = .error 1 ↔
      ∃ c ∈ filename.data, c ∈ QRCodeGenerator.FORBIDDEN_CHARS := by
    unfold QRCodeGenerator.filename_gate QRCodeGenerator.containsForbidden
    by_cases h : filename.data.any (fun c => QRCodeGenerator.FORBIDDEN_CHARS.contains c) = true
    · rw [if_pos h]
      simp only [true_iff]
      rcases List.any_eq_true.mp h with ⟨c, hc, hmem⟩
      exact ⟨c, hc, by simpa using hmem⟩
    · rw [if_neg h]
      constructor
      · intro habs; exact absurd habs (by simp)
      · intro ⟨c, hc, hmem⟩
        exact absurd (List.any_eq_true.mpr ⟨c, hc, by simpa using hmem⟩) h
  refine ⟨hiff, ?_, ?_⟩
  · intro hex existing extension
    unfold QRCodeGenerator.generate_qrcode
    rw [hiff.mpr hex]
  · intro hb
    have hs : ¬ Py.strip name = "" := by
      intro h
      rw [show Py.isBlank name = true by simp [Py.isBlank, h]] at hb
      exact absurd hb (by simp)
    simp [CertificateGenerator.create_certificate, if_neg hs]

/-- C2 amended witness at concrete inputs. -/
theorem forbidden_chars_policy_witness :
    QRCodeGenerator.generate_qrcode [] "x:y" "png" = .error 1 ∧
    CertificateGenerator.create_certificate [" Jo Do "]
      = [CertificateGenerator.certFileName "Jo Do"] := by
  constructor
  · exact (forbidden_chars_policy "x:y" "z").2.1 (by decide) [] "png"
  · have h := (forbidden_chars_policy "x" " Jo Do ").2.2 (by decide)
    rw [h]
    decide

namespace Digits

theorem toDigitsCore_eq (fuel n : Nat) (acc : List Char) (h : n < fuel) :
    Nat.toDigitsCore 10 fuel n acc = rep n ++ acc := by
  induction fuel generalizing n acc with
  | zero => omega
  | succ fuel ih =>
    simp only [Nat.toDigitsCore]
    by_cases h0 : n / 10 = 0
    · rw [if_pos h0]
      have hn : n < 10 := by omega
      rw [rep, if_pos hn, Nat.mod_eq_of_lt hn]
      rfl
    · rw [if_neg h0]
      have hpos : 0 < n := by
        rcases Nat.eq_zero_or_pos n with h | h
        · exact absurd (by rw [h]) h0
        · exact h
      have hlt : n / 10 < fuel := by
        have := Nat.div_lt_self hpos (by omega : 1 < 10)
        omega
      rw [ih (n / 10) _ hlt,
        show rep n = rep (n / 10) ++ [Nat.digitChar (n % 10)] from by
          rw [rep]; rw [if_neg (by omega : ¬ n < 10)],
        List.append_assoc]
      rfl

theorem toDigits_eq (n : Nat) : Nat.toDigits 10 n = rep n := by
  unfold Nat.toDigits
  rw [toDigitsCore_eq (n + 1) n [] (by omega), List.append_nil]

theorem decode_append_digit (l : List Char) (c : Char) :
    decode (l ++ [c]) = decode l * 10 + digitVal c := by
  unfold decode
  rw [List.foldl_append]
  rfl

theorem digitVal_digitChar {d : Nat} (h : d < 10) :
    digitVal (Nat.digitChar d) = d := by
  interval_cases d <;> rfl

theorem decode_rep (n : Nat) : decode (rep n) = n := by
  induction n using Nat.strong_induction_on with
  | _ n ih =>
    rw [rep]
    by_cases h : n < 10
    · rw [if_pos h]
      show decode ([] ++ [Nat.digitChar n]) = n
      rw [decode_append_digit, digitVal_digitChar h]
      have hz : decode [] = 0 := rfl
      omega
    · rw [if_neg h, decode_append_digit,
        ih (n / 10) (Nat.div_lt_self (by omega) (by omega)),
        digitVal_digitChar (Nat.mod_lt _ (by omega))]
      omega

theorem repr_data (n : Nat) : (Nat.repr n).data = rep n := by
  show (Nat.toDigits 10 n).asString.data = rep n
  rw [show (Nat.toDigits 10 n).asString.data = Nat.toDigits 10 n from rfl,
    toDigits_eq]

theorem repr_injective : Function.Injective Nat.repr := by
  intro m n h
  have h2 : rep m = rep n := by
    rw [← repr_data, ← repr_data, h]
  have h3 := congrArg decode h2
  rwa [decode_rep, decode_rep] at h3

theorem rep_ne_nil (n : Nat) : rep n ≠ [] := by
  rw [rep]
  by_cases h : n < 10
  · simp [h]
  · simp [h]

end Digits

namespace QRCodeGenerator

theorem qrCandidate_injective (f e : String) : Function.Injective (qrCandidate f e) := by
  have hlen : ∀ c : Nat, 1 ≤ (Nat.repr c).data.length := by
    intro c
    rw [Digits.repr_data]
    exact List.length_pos.mpr (Digits.rep_ne_nil c)
  intro a b h
  match a, b with
  | 0, 0 => rfl
  | 0, c + 1 =>
    exfalso
    have := congrArg (fun s : String => s.data.length) h
    simp only [qrCandidate, String.data_append, List.length_append] at this
    have h1 := hlen (c + 1)
    simp at this
    omega
  | c + 1, 0 =>
    exfalso
    have := congrArg (fun s : String => s.data.length) h
    simp only [qrCandidate, String.data_append, List.length_append] at this
    have h1 := hlen (c + 1)
    simp at this
    omega
  | a + 1, b + 1 =>
    have hd := congrArg String.data h
    simp only [qrCandidate, String.data_append, List.append_assoc] at hd
    have h1 := List.append_cancel_left hd
    have h2 := List.append_cancel_left h1
    have h3 : (Nat.repr (a + 1)).data ++ (")." ++ e).data
        = (Nat.repr (b + 1)).data ++ (")." ++ e).data := by
      simpa [String.data_append] using h2
    have h4 := List.append_cancel_right h3
    have h5 : Nat.repr (a + 1) = Nat.repr (b + 1) := congrArg String.mk h4
    have := Digits.repr_injective h5
    omega

theorem exists_free_candidate (existing : List String) (f e : String) :
    ∃ c, c ≤ existing.length ∧ qrCandidate f e c ∉ existing := by
  by_contra hcon
  push_neg at hcon
  have hnd : ((List.range (existing.length + 1)).map (qrCandidate f e)).Nodup :=
    (List.nodup_range _).map (qrCandidate_injective f e)
  have hsub : (List.range (existing.length + 1)).map (qrCandidate f e) ⊆ existing := by
    intro x hx
    rcases List.mem_map.mp hx with ⟨c, hc, rfl⟩
    exact hcon c (Nat.lt_succ_iff.mp (List.mem_range.mp hc))
  have hle := (hnd.subperm hsub).length_le
  simp only [List.length_map, List.length_range] at hle
  omega

theorem resolveGo_spec (existing : List String) (f e : String) :
    ∀ fuel c, (∃ d, c ≤ d ∧ d ≤ c + fuel ∧ qrCandidate f e d ∉ existing) →
    ∃ m, c ≤ m ∧ resolveGo existing f e fuel c = qrCandidate f e m ∧
      qrCandidate f e m ∉ existing ∧
      ∀ k, c ≤ k → k < m → qrCandidate f e k ∈ existing := by
  intro fuel
  induction fuel with
  | zero =>
    intro c ⟨d, hcd, hdc, hfree⟩
    have hdc2 : d = c := by omega
    exact ⟨c, le_refl _, rfl, hdc2 ▸ hfree, fun k hk1 hk2 => absurd hk2 (by omega)⟩
  | succ fuel ih =>
    intro c ⟨d, h1, h2, h3⟩
    by_cases hc : qrCandidate f e c ∈ existing
    · rw [show resolveGo existing f e (fuel + 1) c
          = resolveGo existing f e fuel (c + 1) from by
        rw [resolveGo, if_pos hc]]
      have hd : d ≠ c := fun heq => h3 (heq ▸ hc)
      obtain ⟨m, hm1, hm2, hm3, hm4⟩ := ih (c + 1) ⟨d, by omega, by omega, h3⟩
      refine ⟨m, by omega, hm2, hm3, fun k hk1 hk2 => ?_⟩
      by_cases hkc : k = c
      · exact hkc ▸ hc
      · exact hm4 k (by omega) hk2
    · rw [show resolveGo existing f e (fuel + 1) c = qrCandidate f e c from by
        rw [resolveGo, if_neg hc]]
      exact ⟨c, le_refl _, rfl, hc, fun k hk1 hk2 => absurd hk2 (by omega)⟩

end QRCodeGenerator

/-- C8: the QR flow saves to `{filename}.{extension}` when that path
is free; otherwise to `{filename}({counter}).{extension}` for the
smallest counter at least 1 whose path does not exist; in either case
the chosen path is not an existing one, so saving never overwrites an
existing file. -/
theorem qr_collision_resolution (existing : List String) (filename extension : String) :
    QRCodeGenerator.resolve_path existing filename extension ∉ existing ∧
    (QRCodeGenerator.qrCandidate filename extension 0 ∉ existing →
      QRCodeGenerator.resolve_path existing filename extension
        = QRCodeGenerator.qrCandidate filename extension 0) ∧
    (QRCodeGenerator.qrCandidate filename extension 0 ∈ existing →
      ∃ c, 1 ≤ c ∧
        QRCodeGenerator.resolve_path existing filename extension
          = QRCodeGenerator.qrCandidate filename extension c ∧
        QRCodeGenerator.qrCandidate filename extension c ∉ existing ∧
        ∀ k, 1 ≤ k → k < c →
          QRCodeGenerator.qrCandidate filename extension k ∈ existing) := by
  obtain ⟨d, hd1, hd2⟩ := QRCodeGenerator.exists_free_candidate existing filename extension
  obtain ⟨m, hm0, hm1, hm2, hm3⟩ :=
    QRCodeGenerator.resolveGo_spec existing filename extension (existing.length + 1) 0
      ⟨d, by omega, by omega, hd2⟩
  have hrp : QRCodeGenerator.resolve_path existing filename extension
      = QRCodeGenerator.qrCandidate filename extension m := by
    rw [QRCodeGenerator.resolve_path, hm1]
  refine ⟨hrp ▸ hm2, ?_, ?_⟩
  · intro h0
    rcases Nat.eq_zero_or_pos m with hm | hm
    · rw [hrp, hm]
    · exact absurd (hm3 0 (by omega) (by omega)) h0
  · intro h0
    rcases Nat.eq_zero_or_pos m with hm | hm
    · exact absurd (hm ▸ h0) hm2
    · exact ⟨m, by omega, hrp, hm2, fun k hk1 hk2 => hm3 k (by omega) hk2⟩

/-- C8 witness: concrete collision resolutions. -/
theorem qr_collision_resolution_witness :
    QRCodeGenerator.resolve_path ["f.png"] "g" "png" = "g.png" ∧
    (∃ c, 1 ≤ c ∧
      QRCodeGenerator.resolve_path ["f.png", "f(1).png"] "f" "png"
        = QRCodeGenerator.qrCandidate "f" "png" c ∧
      QRCodeGenerator.qrCandidate "f" "png" c ∉ ["f.png", "f(1).png"] ∧
      ∀ k, 1 ≤ k → k < c →
        QRCodeGenerator.qrCandidate "f" "png" k ∈ ["f.png", "f(1).png"]) :=
  ⟨(qr_collision_resolution ["f.png"] "g" "png").2.1 (by decide),
   (qr_collision_resolution ["f.png", "f(1).png"] "f" "png").2.2 (by decide)⟩

/-- C1 counterexample: a CSV whose second data row has an empty Email
value makes the pre-flight `check_csv` call exit(1), so the email flow
terminates before any email is sent; the bad row is not skipped, and
the valid first row is not processed either. -/
theorem email_empty_email_stops_run_counterexample :
    EmailSender.rowInvalid ⟨some "Bea", some "", some ""⟩ = true ∧
    EmailSender.email_flow (fun _ => true) "A" "G" "Respective" (fun _ => .ok)
      [⟨some "Al", some "al@x", some ""⟩, ⟨some "Bea", some "", some ""⟩]
      = .exited 1 [] := by
  refine ⟨by decide, by decide⟩

/-- C1 amended: a data row with a missing or blank Email (or Full
Name) makes the pre-flight `check_csv` terminate the non-automation
email flow with exit code 1 before any email is sent.  Inside
`send_bulk_emails` itself (reached without `check_csv` on the
automation path), a row whose Email value is missing raises a
per-row error that is logged, and the loop continues with the
remaining rows. -/
theorem email_empty_email_policy (fsExists : String → Bool) (aDir gDir mode : String)
    (smtp : Nat → EmailSender.SmtpOutcome) (rows : List EmailSender.Row) :
    ((∃ r ∈ rows, EmailSender.rowInvalid r = true) →
      EmailSender.email_flow fsExists aDir gDir mode smtp rows = .exited 1 []) ∧
    (∀ (r : EmailSender.Row) (rest : List EmailSender.Row) (p ri : Nat)
        (common : List String), r.email.isNone = true →
      EmailSender.send_bulk_aux fsExists aDir gDir mode common smtp p ri (r :: rest)
        = EmailSender.prependEvents [.rowError ri]
            (EmailSender.send_bulk_aux fsExists aDir gDir mode common smtp (p + 1) ri rest)) := by
  constructor
  · intro ⟨r, hr, hinv⟩
    have hne : rows.isEmpty = false := by
      cases rows with
      | nil => cases hr
      | cons a as => rfl
    have hany : rows.any EmailSender.rowInvalid = true :=
      List.any_eq_true.mpr ⟨r, hr, hinv⟩
    unfold EmailSender.email_flow EmailSender.check_csv
    rw [hne]
    simp only [Bool.false_eq_true, if_false, hany, if_true]
  · intro r rest p ri common he
    simp only [EmailSender.send_bulk_aux, EmailSender.processRow, he, Bool.true_or,
      if_true]

/-- C1 amended witness at concrete inputs. -/
theorem email_empty_email_policy_witness :
    EmailSender.email_flow (fun _ => true) "A" "G" "Respective" (fun _ => .ok)
      [⟨some "Al", some "al@x", none⟩, ⟨some "Bea", some "", none⟩] = .exited 1 [] ∧
    EmailSender.send_bulk_aux (fun _ => true) "A" "G" "Respective" [] (fun _ => .ok) 0 2
      [⟨some "Bea", none, none⟩, ⟨some "Al", some "al@x", none⟩]
      = EmailSender.prependEvents [.rowError 2]
          (EmailSender.send_bulk_aux (fun _ => true) "A" "G" "Respective" [] (fun _ => .ok)
            1 2 [⟨some "Al", some "al@x", none⟩]) :=
  ⟨(email_empty_email_policy (fun _ => true) "A" "G" "Respective" (fun _ => .ok)
      [⟨some "Al", some "al@x", none⟩, ⟨some "Bea", some "", none⟩]).1
      ⟨⟨some "Bea", some "", none⟩, by decide, by decide⟩,
   (email_empty_email_policy (fun _ => true) "A" "G" "Respective" (fun _ => .ok)
      [⟨some "Bea", none, none⟩, ⟨some "Al", some "al@x", none⟩]).2
      ⟨some "Bea", none, none⟩ [⟨some "Al", some "al@x", none⟩] 0 2 [] rfl⟩

/-- C6: in attachment mode Common, whenever the pre-flight
`check_attachments` passes, the attachment value the send loop uses
for every recipient row is the semicolon-split of the first data row's
Attachments value - the right-hand side does not mention the row, so
it is independent of that row's own Attachments value. -/
theorem common_mode_attachments (rows : List EmailSender.Row) (fsExists : String → Bool)
    (attachmentsDir : String)
    (h : EmailSender.check_attachments_common rows fsExists attachmentsDir = .ok ())
    (r : EmailSender.Row) (hr : r ∈ rows) (name : String) :
    EmailSender.rowAttachments "Common" (EmailSender.commonAttachments rows) name r
      = some (.strs (Py.splitCh ';'
          (((rows.head?).getD default).attachments.getD ""))) := by
  match rows, hr with
  | first :: rest, _ =>
    cases hfa : first.attachments with
    | none =>
      simp only [EmailSender.check_attachments_common, hfa] at h
      cases h
    | some a =>
      simp only [EmailSender.check_attachments_common, hfa] at h
      by_cases ha : a = ""
      · rw [if_pos ha] at h; cases h
      · simp [EmailSender.rowAttachments, EmailSender.commonAttachments, hfa, ha]

/-- C6 witness at a concrete CSV: the second row's own Attachments
value zzz is ignored; the first row's split list is used. -/
theorem common_mode_attachments_witness :
    EmailSender.rowAttachments "Common"
      (EmailSender.commonAttachments
        [⟨some "Al", some "a@x", some "f1;f2"⟩, ⟨some "Bea", some "b@x", some "zzz"⟩])
      "Bea" ⟨some "Bea", some "b@x", some "zzz"⟩
      = some (.strs ["f1", "f2"]) := by
  have h := common_mode_attachments
    [⟨some "Al", some "a@x", some "f1;f2"⟩, ⟨some "Bea", some "b@x", some "zzz"⟩]
    (fun _ => true) "A" (by decide) ⟨some "Bea", some "b@x", some "zzz"⟩ (by decide) "Bea"
  rw [h]
  decide

namespace EmailSender

theorem attachEvents_nonterminal (fsExists : String → Bool) (aDir gDir : String)
    (atts : AttValue) :
    ∀ ev ∈ attachEvents fsExists aDir gDir atts, isTerminal ev = false := by
  intro ev hev
  cases atts with
  | str p =>
    unfold attachEvents at hev
    by_cases hfs : fsExists (gDir ++ "/" ++ p) = true
    · simp [hfs] at hev
    · simp [hfs] at hev
      subst hev
      rfl
  | strs ps =>
    unfold attachEvents at hev
    rcases List.mem_filterMap.mp hev with ⟨p, _, hsome⟩
    by_cases hfs : fsExists (aDir ++ "/" ++ p) = true
    · simp [hfs] at hsome
    · simp [hfs] at hsome
      subst hsome
      rfl

theorem handledCount_append (a b : List Event) :
    handledCount (a ++ b) = handledCount a + handledCount b := by
  unfold handledCount
  rw [List.filter_append, List.length_append]

theorem handledCount_of_nonterminal {evs : List Event}
    (h : ∀ ev ∈ evs, isTerminal ev = false) : handledCount evs = 0 := by
  unfold handledCount
  have : evs.filter isTerminal = [] := by
    rw [List.filter_eq_nil_iff]
    intro ev hev
    rw [h ev hev]
    simp
  rw [this]
  rfl

theorem send_email_nonfatal (fsExists : String → Bool) (aDir gDir recip : String)
    (atts : AttValue) (o : SmtpOutcome) (ho : o ≠ .authFail ∧ o ≠ .dnsFail) :
    ∃ evs, send_email fsExists aDir gDir recip atts o = .cont evs ∧
      handledCount evs = 1 ∧
      (o = .sendFail → Event.sendFailed recip ∈ evs) := by
  have hatt := handledCount_of_nonterminal (attachEvents_nonterminal fsExists aDir gDir atts)
  cases o with
  | authFail => exact absurd rfl ho.1
  | dnsFail => exact absurd rfl ho.2
  | sendFail =>
    refine ⟨_, rfl, ?_, fun _ => List.mem_append_right _ (List.mem_singleton_self _)⟩
    rw [handledCount_append, hatt]
    rfl
  | ok =>
    refine ⟨_, rfl, ?_, fun h => by cases h⟩
    rw [handledCount_append, hatt]
    rfl

theorem rowAttachments_valid (mode : String) (common : List String) (name : String)
    (r : Row) (hmode : mode = "Respective" ∨ mode = "Common" ∨ mode = "Other" ∨ mode = "None") :
    ∃ atts, rowAttachments mode common name r = some atts := by
  rcases hmode with h | h | h | h <;> subst h
  · exact ⟨_, by rw [rowAttachments, if_pos rfl]⟩
  · exact ⟨_, by rw [rowAttachments, if_neg (by decide), if_pos rfl]⟩
  · exact ⟨_, by rw [rowAttachments, if_neg (by decide), if_neg (by decide), if_pos rfl]⟩
  · exact ⟨_, by
      rw [rowAttachments, if_neg (by decide), if_neg (by decide), if_neg (by decide),
        if_pos rfl]⟩

theorem processRow_nonfatal (fsExists : String → Bool) (aDir gDir mode : String)
    (common : List String) (o : SmtpOutcome) (ri : Nat) (r : Row)
    (hmode : mode = "Respective" ∨ mode = "Common" ∨ mode = "Other" ∨ mode = "None")
    (ho : o ≠ .authFail ∧ o ≠ .dnsFail) :
    ∃ evs, processRow fsExists aDir gDir mode common o ri r = .cont evs ∧
      handledCount evs = 1 ∧
      (attempts r = true → o = .sendFail → Event.sendFailed (recipientOf r) ∈ evs) := by
  by_cases hat : attempts r = true
  · have hcond : (r.email.isNone || r.fullName.isNone) = false := by
      unfold attempts at hat
      simpa using hat
    obtain ⟨atts, hatts⟩ := rowAttachments_valid mode common
      (Py.title (Py.strip (r.fullName.getD ""))) r hmode
    obtain ⟨evs, hevs, hcount, hmem⟩ :=
      send_email_nonfatal fsExists aDir gDir (recipientOf r) atts o ho
    refine ⟨evs, ?_, hcount, fun _ hsf => hmem hsf⟩
    unfold processRow
    rw [hcond]
    simp only [Bool.false_eq_true, if_false, hatts]
    exact hevs
  · have hcond : (r.email.isNone || r.fullName.isNone) = true := by
      cases h : (r.email.isNone || r.fullName.isNone)
      · exact absurd (by unfold attempts; rw [h]; rfl) hat
      · rfl
    refine ⟨[.rowError ri], ?_, rfl, fun h => absurd h hat⟩
    unfold processRow
    rw [hcond, if_pos rfl]

theorem processRow_fatal (fsExists : String → Bool) (aDir gDir mode : String)
    (common : List String) (o : SmtpOutcome) (ri : Nat) (r : Row)
    (hmode : mode = "Respective" ∨ mode = "Common" ∨ mode = "Other" ∨ mode = "None")
    (hat : attempts r = true) (ho : o = .authFail ∨ o = .dnsFail) :
    ∃ evs, processRow fsExists aDir gDir mode common o ri r = .fatal 1 evs ∧
      handledCount evs = 0 := by
  have hcond : (r.email.isNone || r.fullName.isNone) = false := by
    unfold attempts at hat
    simpa using hat
  obtain ⟨atts, hatts⟩ := rowAttachments_valid mode common
    (Py.title (Py.strip (r.fullName.getD ""))) r hmode
  refine ⟨attachEvents fsExists aDir gDir atts, ?_,
    handledCount_of_nonterminal (attachEvents_nonterminal fsExists aDir gDir atts)⟩
  unfold processRow
  rw [hcond]
  simp only [Bool.false_eq_true, if_false, hatts]
  unfold send_email
  rcases ho with h | h <;> rw [h]

end EmailSender

namespace EmailSender

theorem processRow_no_attempt (fsExists : String → Bool) (aDir gDir mode : String)
    (common : List String) (o : SmtpOutcome) (ri : Nat) (r : Row)
    (hat : attempts r = false) :
    processRow fsExists aDir gDir mode common o ri r = .cont [.rowError ri] := by
  have hcond : (r.email.isNone || r.fullName.isNone) = true := by
    unfold attempts at hat
    cases h : (r.email.isNone || r.fullName.isNone)
    · rw [h] at hat
      exact absurd hat (by simp)
    · rfl
  unfold processRow
  rw [hcond, if_pos rfl]

theorem aux_no_fatal (fsExists : String → Bool) (aDir gDir mode : String)
    (common : List String) (smtp : Nat → SmtpOutcome)
    (hmode : mode = "Respective" ∨ mode = "Common" ∨ mode = "Other" ∨ mode = "None") :
    ∀ (rows : List Row) (p ri : Nat),
    (∀ i, i < rows.length → smtp (p + i) ≠ .authFail ∧ smtp (p + i) ≠ .dnsFail) →
    ∃ evs, send_bulk_aux fsExists aDir gDir mode common smtp p ri rows = .finished evs ∧
      handledCount evs = rows.length ∧
      (∀ k, k < rows.length → attempts (rows.getD k default) = true →
        smtp (p + k) = .sendFail →
        Event.sendFailed (recipientOf (rows.getD k default)) ∈ evs) := by
  intro rows
  induction rows with
  | nil =>
    intro p ri _
    exact ⟨[], rfl, rfl, fun k hk => absurd hk (by simp)⟩
  | cons r rest ih =>
    intro p ri h
    have h0 : smtp p ≠ .authFail ∧ smtp p ≠ .dnsFail := by
      have := h 0 (by simp)
      simpa using this
    obtain ⟨evs0, hp0, hc0, hm0⟩ :=
      processRow_nonfatal fsExists aDir gDir mode common (smtp p) ri r hmode h0
    obtain ⟨evs1, hp1, hc1, hm1⟩ :=
      ih (p + 1) (if r.email.isNone || r.fullName.isNone then ri else ri + 1)
        (fun i hi => by
          have harith : p + 1 + i = p + (i + 1) := by omega
          rw [harith]
          exact h (i + 1) (by simp only [List.length_cons]; omega))
    refine ⟨evs0 ++ evs1, ?_, ?_, ?_⟩
    · simp only [send_bulk_aux, hp0, prependEvents, hp1]
    · rw [handledCount_append, hc0, hc1, List.length_cons]
      omega
    · intro k hk hat hsf
      cases k with
      | zero =>
        exact List.mem_append_left _
          (hm0 (by simpa using hat) (by simpa using hsf))
      | succ k =>
        refine List.mem_append_right _ ?_
        have harith : p + 1 + k = p + (k + 1) := by omega
        exact hm1 k (by simp only [List.length_cons] at hk; omega)
          (by simpa using hat) (by rw [harith]; simpa using hsf)

theorem aux_first_fatal (fsExists : String → Bool) (aDir gDir mode : String)
    (common : List String) (smtp : Nat → SmtpOutcome)
    (hmode : mode = "Respective" ∨ mode = "Common" ∨ mode = "Other" ∨ mode = "None") :
    ∀ (rows : List Row) (p ri k : Nat), k < rows.length →
    attempts (rows.getD k default) = true →
    (smtp (p + k) = .authFail ∨ smtp (p + k) = .dnsFail) →
    (∀ j, j < k → ¬(attempts (rows.getD j default) = true ∧
      (smtp (p + j) = .authFail ∨ smtp (p + j) = .dnsFail))) →
    ∃ evs, send_bulk_aux fsExists aDir gDir mode common smtp p ri rows = .exited 1 evs ∧
      handledCount evs = k := by
  intro rows
  induction rows with
  | nil =>
    intro p ri k hk
    exact absurd hk (by simp)
  | cons r rest ih =>
    intro p ri k hk hat hfat hbefore
    cases k with
    | zero =>
      obtain ⟨evs, he, hc⟩ := processRow_fatal fsExists aDir gDir mode common (smtp p)
        ri r hmode (by simpa using hat) (by simpa using hfat)
      refine ⟨evs, ?_, hc⟩
      simp only [send_bulk_aux, he]
    | succ k =>
      have h0 := hbefore 0 (by omega)
      have hcont : ∃ evs0,
          processRow fsExists aDir gDir mode common (smtp p) ri r = .cont evs0 ∧
          handledCount evs0 = 1 := by
        by_cases hat0 : attempts r = true
        · have hnf : ¬(smtp (p + 0) = .authFail ∨ smtp (p + 0) = .dnsFail) :=
            fun hf => h0 ⟨by simpa using hat0, hf⟩
          have hnf2 : smtp p ≠ .authFail ∧ smtp p ≠ .dnsFail := by
            constructor
            · intro hh
              exact hnf (Or.inl (by simpa using hh))
            · intro hh
              exact hnf (Or.inr (by simpa using hh))
          obtain ⟨evs0, a, b, _⟩ :=
            processRow_nonfatal fsExists aDir gDir mode common (smtp p) ri r hmode hnf2
          exact ⟨evs0, a, b⟩
        · refine ⟨[.rowError ri], ?_, rfl⟩
          exact processRow_no_attempt fsExists aDir gDir mode common (smtp p) ri r
            (by cases h : attempts r; rfl; exact absurd h hat0)
      obtain ⟨evs0, hp0, hc0⟩ := hcont
      obtain ⟨evs1, hp1, hc1⟩ :=
        ih (p + 1) (if r.email.isNone || r.fullName.isNone then ri else ri + 1) k
          (by simp only [List.length_cons] at hk; omega)
          (by simpa using hat)
          (by
            have harith : p + 1 + k = p + (k + 1) := by omega
            rw [harith]
            simpa using hfat)
          (fun j hj => by
            have harith : p + 1 + j = p + (j + 1) := by omega
            rw [harith]
            have := hbefore (j + 1) (by omega)
            simpa using this)
      refine ⟨evs0 ++ evs1, ?_, ?_⟩
      · simp only [send_bulk_aux, hp0, prependEvents, hp1]
      · rw [handledCount_append, hc0, hc1]
        omega

end EmailSender

/-- C7: under a valid attachment mode, per-item failures do not stop
the send loop while connection-level failures do: when no attempted
row hits an SMTP authentication or DNS failure, the run finishes with
every row handled (rows with missing values are logged as row errors
and skipped, rows whose send fails are logged as send failures - in
particular every attempted row whose submission fails is logged), and
the first row whose SMTP attempt hits an authentication or DNS failure
terminates the whole run with exit code 1, with exactly the earlier
rows handled. -/
theorem email_loop_error_policy (fsExists : String → Bool) (aDir gDir mode : String)
    (smtp : Nat → EmailSender.SmtpOutcome) (rows : List EmailSender.Row)
    (hmode : mode = "Respective" ∨ mode = "Common" ∨ mode = "Other" ∨ mode = "None") :
    ((∀ i, i < rows.length → smtp i ≠ .authFail ∧ smtp i ≠ .dnsFail) →
      ∃ evs, EmailSender.send_bulk_emails fsExists aDir gDir mode smtp rows
          = .finished evs ∧
        EmailSender.handledCount evs = rows.length ∧
        (∀ k, k < rows.length →
          EmailSender.attempts (rows.getD k default) = true → smtp k = .sendFail →
          EmailSender.Event.sendFailed (EmailSender.recipientOf (rows.getD k default))
            ∈ evs)) ∧
    (∀ k, k < rows.length →
      EmailSender.attempts (rows.getD k default) = true →
      (smtp k = .authFail ∨ smtp k = .dnsFail) →
      (∀ j, j < k → ¬(EmailSender.attempts (rows.getD j default) = true ∧
        (smtp j = .authFail ∨ smtp j = .dnsFail))) →
      ∃ evs, EmailSender.send_bulk_emails fsExists aDir gDir mode smtp rows
          = .exited 1 evs ∧
        EmailSender.handledCount evs = k) := by
  constructor
  · intro h
    obtain ⟨evs, h1, h2, h3⟩ :=
      EmailSender.aux_no_fatal fsExists aDir gDir mode (EmailSender.commonAttachments rows)
        smtp hmode rows 0 2 (fun i hi => by simpa using h i hi)
    exact ⟨evs, h1, h2, fun k hk hat hsf => h3 k hk hat (by simpa using hsf)⟩
  · intro k hk hat hfat hbefore
    obtain ⟨evs, h1, h2⟩ :=
      EmailSender.aux_first_fatal fsExists aDir gDir mode
        (EmailSender.commonAttachments rows) smtp hmode rows 0 2 k hk hat
        (by simpa using hfat) (fun j hj => by simpa using hbefore j hj)
    exact ⟨evs, h1, h2⟩

/-- C7 witness: a run with one send failure and one bad row finishes
with all three rows handled; a run whose second attempt hits an
authentication failure exits with code 1 after handling one row. -/
theorem email_loop_error_policy_witness :
    (∃ evs, EmailSender.send_bulk_emails (fun _ => false) "A" "G" "Respective"
        (fun p => if p = 0 then .sendFail else .ok)
        [⟨some "Al", some "a@x", some "f1"⟩, ⟨some "Bea", none, none⟩,
         ⟨some "Cy", some "c@x", none⟩] = .finished evs ∧
      EmailSender.handledCount evs = 3 ∧
      (∀ k, k < 3 →
        EmailSender.attempts (([⟨some "Al", some "a@x", some "f1"⟩, ⟨some "Bea", none, none⟩,
          ⟨some "Cy", some "c@x", none⟩] : List EmailSender.Row).getD k default) = true →
        (if k = 0 then EmailSender.SmtpOutcome.sendFail else .ok) = .sendFail →
        EmailSender.Event.sendFailed (EmailSender.recipientOf
          (([⟨some "Al", some "a@x", some "f1"⟩, ⟨some "Bea", none, none⟩,
            ⟨some "Cy", some "c@x", none⟩] : List EmailSender.Row).getD k default)) ∈ evs)) ∧
    (∃ evs, EmailSender.send_bulk_emails (fun _ => true) "A" "G" "None"
        (fun p => if p = 1 then .authFail else .ok)
        [⟨some "Al", some "a@x", none⟩, ⟨some "Bea", some "b@x", none⟩]
        = .exited 1 evs ∧
      EmailSender.handledCount evs = 1) := by
  constructor
  · exact (email_loop_error_policy (fun _ => false) "A" "G" "Respective"
      (fun p => if p = 0 then .sendFail else .ok)
      [⟨some "Al", some "a@x", some "f1"⟩, ⟨some "Bea", none, none⟩,
       ⟨some "Cy", some "c@x", none⟩] (Or.inl rfl)).1
      (fun i _ => by
        by_cases h : i = 0 <;> simp [h])
  · exact (email_loop_error_policy (fun _ => true) "A" "G" "None"
      (fun p => if p = 1 then .authFail else .ok)
      [⟨some "Al", some "a@x", none⟩, ⟨some "Bea", some "b@x", none⟩]
      (Or.inr (Or.inr (Or.inr rfl)))).2 1 (by decide) (by decide) (Or.inl (by decide))
      (fun j hj => by
        have hj0 : j = 0 := by omega
        subst hj0
        intro hcon
        exact absurd hcon.2 (by decide))

/-- C10 counterexample: a CSV whose data rows contain no comma has a
first-data-row comma count of 0, which is not 1, so `sort_csv` sorts
by the second comma-separated field; that field does not exist, the
sort key raises an uncaught IndexError, and nothing is written - where
the claim predicts a whole-line sort. -/
theorem sort_csv_no_comma_counterexample :
    Py.countCh ',' "b" = 0 ∧
    Utils.sort_csv ["H", "b", "a"] = .crashed ∧
    Utils.sort_csv ["H", "b", "a"] ≠ .written ["H", "a", "b"] := by
  refine ⟨by decide, by decide, by decide⟩

/-- C10 amended: for a file with a header line and at least one
non-blank data row, `sort_csv` rewrites the file as the stripped
header followed by a permutation of the stripped non-blank data rows,
sorted by whole line when the first data row's comma count is exactly
one, and by the stripped second comma-separated field when the count
differs from one and every data row has at least two fields; when the
count differs from one and some data row has fewer than two fields,
the sort key raises an uncaught IndexError and nothing is written. -/
theorem sort_csv_characterization (hline : String) (rows : List String)
    (d : String) (ds : List String)
    (hdata : (rows.map Py.strip).filter (fun r => !(r == "")) = d :: ds) :
    (Py.countCh ',' d = 1 →
      ∃ out, Utils.sort_csv (hline :: rows) = .written (Py.strip hline :: out) ∧
        out.Perm (d :: ds) ∧ List.Sorted Py.strLe out) ∧
    (Py.countCh ',' d ≠ 1 →
      (∀ r ∈ d :: ds, 2 ≤ (Py.splitCh ',' r).length) →
      ∃ out, Utils.sort_csv (hline :: rows) = .written (Py.strip hline :: out) ∧
        out.Perm (d :: ds) ∧
        List.Sorted (Py.keyLe (fun r => Py.strip ((Py.splitCh ',' r).getD 1 ""))) out) ∧
    (Py.countCh ',' d ≠ 1 →
      (∃ r ∈ d :: ds, (Py.splitCh ',' r).length < 2) →
      Utils.sort_csv (hline :: rows) = .crashed) := by
  refine ⟨?_, ?_, ?_⟩
  · intro hcount
    refine ⟨List.insertionSort Py.strLe (d :: ds), ?_,
      List.perm_insertionSort Py.strLe (d :: ds),
      List.sorted_insertionSort Py.strLe (d :: ds)⟩
    simp only [Utils.sort_csv, hdata, hcount, if_pos]
  · intro hcount hall
    have hany : ((d :: ds).any (fun r => (Py.splitCh ',' r).length < 2)) = false := by
      rw [Bool.eq_false_iff]
      intro hcon
      rcases List.any_eq_true.mp hcon with ⟨r, hr, hlt⟩
      have := hall r hr
      simp only [decide_eq_true_eq] at hlt
      omega
    refine ⟨List.insertionSort
        (Py.keyLe (fun r => Py.strip ((Py.splitCh ',' r).getD 1 ""))) (d :: ds), ?_,
      List.perm_insertionSort _ (d :: ds),
      List.sorted_insertionSort _ (d :: ds)⟩
    simp only [Utils.sort_csv, hdata, hcount, if_neg, hany, Bool.false_eq_true, if_false]
  · intro hcount hex
    have hany : ((d :: ds).any (fun r => (Py.splitCh ',' r).length < 2)) = true := by
      rcases hex with ⟨r, hr, hlt⟩
      exact List.any_eq_true.mpr ⟨r, hr, by simpa using hlt⟩
    simp only [Utils.sort_csv, hdata, hcount, if_neg, hany, if_pos]
    simp

/-- C10 amended witness: a two-column file is sorted by whole line; a
no-comma file crashes. -/
theorem sort_csv_characterization_witness :
    (∃ out, Utils.sort_csv ["H", "b,2", "a,1"] = .written (Py.strip "H" :: out) ∧
      out.Perm ["b,2", "a,1"] ∧ List.Sorted Py.strLe out) ∧
    Utils.sort_csv ["H", "b", "a"] = .crashed :=
  ⟨(sort_csv_characterization "H" ["b,2", "a,1"] "b,2" ["a,1"] (by decide)).1 (by decide),
   (sort_csv_characterization "H" ["b", "a"] "b" ["a"] (by decide)).2.2 (by decide)
     ⟨"b", by decide, by decide⟩⟩
